import Mathlib

/-!
# Verification of the BLE gyroscope → motor-control pipeline

Shallow embedding of the C sources of
`BLE-Based_Gyroscope_Controlled_Motor_System`:

* `src/src/BLE_UART.c`   — frame assembly (`BLE_UART_InString`), `checkCRC`
* `src/src/GyroParser.c` — `ValidateBLEPacket`, `ValidateCRC`, `ExtractFloat`,
  `ParseBLEPacket`
* `src/main.c`           — the per-frame loop body and `MotorControlFromGyro`

Modelling conventions:

* C byte buffers (`uint8_t *`) are modelled as functions `Nat → Nat`
  (a pointer into unbounded memory); byte values live in `[0, 256)` where
  it matters, and 8-bit wraparound is written explicitly with `% 256`.
* IEEE-754 binary32 values are modelled by the inductive `F` below:
  `nan`, the two infinities, and finite values as the exact rational they
  denote.  IEEE comparison semantics is modelled exactly: every ordered
  comparison involving `nan` is false, and `-0.0` coincides with `0` (they
  compare equal in IEEE-754, so collapsing them is sound for this code,
  which only compares).
* The C literals `0.2` / `-0.2` in `MotorControlFromGyro` are modelled as
  the exact rationals `1/5` / `-(1/5)`.  The double closest to `0.2`
  differs from `1/5` by about `1.1e-17`, and no binary32 magnitude lies in
  the gap (binary32 spacing near `0.2` is about `1.5e-8`), so for every
  value decodable from a frame the comparisons agree with the exact ones.
* The blocking byte source is modelled as a `List Nat` of the bytes it
  will deliver; running out of bytes models blocking forever (`none`).
-/

/-- A motor command, as issued by `MotorControlFromGyro` (main.c):
directional commands carry the two duty-cycle arguments. -/
inductive Command where
  | forward (l r : Nat)
  | backward (l r : Nat)
  | right (l r : Nat)
  | left (l r : Nat)
  | stop
  deriving DecidableEq, Repr

/-- IEEE-754 binary32 value, modelled exactly: NaN, infinities, or a finite
value given by the exact rational it denotes (`-0.0` is identified with `0`,
which is sound for comparison-only code). -/
inductive F where
  | nan : F
  | ninf : F
  | pinf : F
  | num : ℚ → F
  deriving DecidableEq, Repr

/-- IEEE strict less-than: any comparison with NaN is false;
`-∞ < q < +∞` for every finite `q`. -/
def F.lt : F → F → Bool
  | F.nan, _ => false
  | _, F.nan => false
  | F.ninf, F.ninf => false
  | F.ninf, _ => true
  | F.num _, F.ninf => false
  | F.num a, F.num b => decide (a < b)
  | F.num _, F.pinf => true
  | F.pinf, _ => false

/-- IEEE less-or-equal: any comparison with NaN is false. -/
def F.le : F → F → Bool
  | F.nan, _ => false
  | _, F.nan => false
  | F.ninf, _ => true
  | F.num _, F.ninf => false
  | F.num a, F.num b => decide (a ≤ b)
  | F.num _, F.pinf => true
  | F.pinf, F.pinf => true
  | F.pinf, _ => false

/-- Model of `fabs`: absolute value; `fabs` of NaN is NaN, of either infinity `+∞`. -/
def F.fabs : F → F
  | F.nan => F.nan
  | F.ninf => F.pinf
  | F.pinf => F.pinf
  | F.num q => F.num |q|

/-- Model of `MotorControlFromGyro` (main.c, lines 101–123), returning the list of
motor commands issued, in program order:

* `if (y > 0.2)` forward `else if (y < -0.2)` backward;
* `if (x > 0.2)` right `else if (x < -0.2)` left;
* `if (fabs(x) <= 0.2 && fabs(y) <= 0.2)` stop.

The literal `0.2` is modelled as the exact rational `1/5` (see header). -/
def MotorControlFromGyro (x y _z : F) : List Command :=
  (if F.lt (F.num (1/5)) y then [Command.forward 3000 3000]
   else if F.lt y (F.num (-(1/5))) then [Command.backward 3000 3000]
   else []) ++
  (if F.lt (F.num (1/5)) x then [Command.right 3000 3000]
   else if F.lt x (F.num (-(1/5))) then [Command.left 3000 3000]
   else []) ++
  (if F.le (F.fabs x) (F.num (1/5)) && F.le (F.fabs y) (F.num (1/5))
   then [Command.stop] else [])

/-- The 32-bit word formed from four consecutive buffer bytes in
little-endian order.  This is what `memcpy(&value, &buffer[offset], 4)` in
`ExtractFloat` (GyroParser.c, lines 102–109) assembles on the little-endian
Cortex-M target. -/
def extractWord (buf : Nat → Nat) (off : Nat) : Nat :=
  buf off + 256 * buf (off + 1) + 65536 * buf (off + 2) +
    16777216 * buf (off + 3)

/-- Decode a 32-bit word as an IEEE-754 binary32 bit pattern: sign bit 31,
8 exponent bits, 23 fraction bits; exponent 255 encodes infinities/NaN,
exponent 0 the subnormals (value `frac · 2^(-149)`), and a normal exponent
`e` the value `(2^23 + frac) · 2^(e - 150)`. -/
def float32ToF (w : Nat) : F :=
  if w / 2 ^ 23 % 2 ^ 8 = 255 then
    if w % 2 ^ 23 = 0 then (if w / 2 ^ 31 % 2 = 1 then F.ninf else F.pinf)
    else F.nan
  else
    F.num ((if w / 2 ^ 31 % 2 = 1 then (-1 : ℚ) else 1) *
      (if w / 2 ^ 23 % 2 ^ 8 = 0 then
        ((w % 2 ^ 23 : ℕ) : ℚ) * (2 : ℚ) ^ (-149 : ℤ)
      else
        ((2 ^ 23 + w % 2 ^ 23 : ℕ) : ℚ) *
          (2 : ℚ) ^ ((w / 2 ^ 23 % 2 ^ 8 : ℕ) - 150 : ℤ)))

/-- Model of `ExtractFloat` (GyroParser.c, lines 102–109): reinterpret the four bytes
at `offset` as a binary32 value (little-endian on the target). -/
def ExtractFloat (buf : Nat → Nat) (off : Nat) : F :=
  float32ToF (extractWord buf off)

/-- Model of `ValidateCRC` (GyroParser.c, lines 77–90): sum the first 14 bytes in
8-bit wraparound arithmetic, complement (`~sum` on `uint8_t` is `255 - sum`),
and compare with byte 14. -/
def ValidateCRC (buf : Nat → Nat) : Bool :=
  255 - (List.range 14).foldl (fun s i => (s + buf i) % 256) 0 = buf 14

/-- Model of `checkCRC` (BLE_UART.c, lines 162–173): byte-for-byte the same
computation as `ValidateCRC`. -/
def checkCRC (buf : Nat → Nat) : Bool :=
  255 - (List.range 14).foldl (fun s i => (s + buf i) % 256) 0 = buf 14

/-- Model of `ValidateBLEPacket` (GyroParser.c, lines 58–66): require the `!G`
marker (`0x21 0x47`) in bytes 0 and 1, then the checksum. -/
def ValidateBLEPacket (buf : Nat → Nat) : Bool :=
  if buf 0 ≠ 33 ∨ buf 1 ≠ 71 then false else ValidateCRC buf

/-- Model of `ParseBLEPacket` (GyroParser.c, lines 32–48): on validation failure it
prints and returns having decoded nothing (`none`); on success it extracts
the three floats at offsets 2, 6, 10 (it prints them; it issues no motor
commands itself). -/
def ParseBLEPacket (buf : Nat → Nat) : Option (F × F × F) :=
  if ValidateBLEPacket buf then
    some (ExtractFloat buf 2, ExtractFloat buf 6, ExtractFloat buf 10)
  else none

/-- The commands emitted by one iteration of the `while (1)` body of `main`
(main.c, lines 60–86) for an assembled buffer: `ParseBLEPacket` is called
first, but it returns `void` and `main` ignores its validation outcome—the
three `ExtractFloat` calls and `MotorControlFromGyro` run unconditionally. -/
def mainIteration (buf : Nat → Nat) : List Command :=
  MotorControlFromGyro (ExtractFloat buf 2) (ExtractFloat buf 6)
    (ExtractFloat buf 10)

/-- View a concrete byte list as a C buffer (reads past the end give 0). -/
def bufOfList (l : List Nat) : Nat → Nat :=
  fun i => l.getD i 0

/-- A single store through the write pointer: `*buffer_pointer = c`. -/
def wr (buf : Nat → Nat) (i v : Nat) : Nat → Nat :=
  fun j => if j = i then v else buf j

/-- The loop of `BLE_UART_InString` (BLE_UART.c, lines 84–114), given the
remaining bytes the blocking `BLE_UART_InChar` will deliver.  State machine:
`st = 0` scans for `0x21`, `st = 1` expects `0x47`, `st = 2` collects bytes
until `length == 15`.  The desynchronization branch executes the source's
exact (faulty) arithmetic: `length` is set to 0 *before*
`buffer_pointer -= length`, so the write pointer `pos` is NOT rewound.
`none` models blocking forever on an exhausted byte source. -/
def BLE_UART_InStringLoop (buf : Nat → Nat) (pos len st bsize : Nat) :
    List Nat → Option (Nat × (Nat → Nat))
  | [] => if len < bsize then none else some (len, buf)
  | c :: rest =>
    if len < bsize then
      if st = 0 ∧ c = 33 then
        BLE_UART_InStringLoop (wr buf pos c) (pos + 1) 1 1 bsize rest
      else if st = 1 ∧ c = 71 then
        BLE_UART_InStringLoop (wr buf pos c) (pos + 1) (len + 1) 2 bsize rest
      else if st = 2 then
        if len + 1 = 15 then some (len + 1, wr buf pos c)
        else
          BLE_UART_InStringLoop (wr buf pos c) (pos + 1) (len + 1) 2 bsize
            rest
      else
        BLE_UART_InStringLoop buf pos 0 0 bsize rest
    else some (len, buf)

/-- Entry point `BLE_UART_InString(buffer, buffer_size)` as called from `main`
(zero-initialized buffer, write pointer at its start). -/
def BLE_UART_InString (bsize : Nat) (stream : List Nat) :
    Option (Nat × (Nat → Nat)) :=
  BLE_UART_InStringLoop (fun _ => 0) 0 0 0 bsize stream

/-- A well-formed example frame: marker `!G`, x = 0.0, y = 0.5
(`0x3F000000`, little-endian bytes `00 00 00 3F` at offsets 6–9), z = 0.0,
checksum `255 - (33 + 71 + 63) = 88`. -/
def gyroFrame : List Nat :=
  [33, 71, 0, 0, 0, 0, 0, 0, 0, 63, 0, 0, 0, 0, 88]

/-- The same frame with its checksum byte corrupted to 0 (invalid). -/
def badFrame : List Nat :=
  [33, 71, 0, 0, 0, 0, 0, 0, 0, 63, 0, 0, 0, 0, 0]

/-- The frame of the float-decode scenario: x = 1.5 (`0x3FC00000`),
y = -2.25 (`0xC0100000`), z = 0.0, with its correct checksum
`255 - ((33 + 71 + 192 + 63 + 16 + 192) % 256) = 200`. -/
def floatFrame : List Nat :=
  [33, 71, 0, 0, 192, 63, 0, 0, 16, 192, 0, 0, 0, 0, 200]

/-! ## Helper lemmas -/

/-- The running 8-bit wraparound sum of `ValidateCRC`/`checkCRC` computes
the plain sum modulo 256. -/
theorem foldl_mod256_eq_sum_mod (buf : Nat → Nat) :
    ∀ (l : List Nat) (s : Nat),
      l.foldl (fun a i => (a + buf i) % 256) (s % 256) =
        (s + (l.map buf).sum) % 256 := by
  intro l
  induction l with
  | nil => intro s; simp
  | cons c t ih =>
    intro s
    have h1 : (s % 256 + buf c) % 256 = (s + buf c) % 256 :=
      Nat.mod_add_mod s 256 (buf c)
    calc (c :: t).foldl (fun a i => (a + buf i) % 256) (s % 256)
        = t.foldl (fun a i => (a + buf i) % 256) ((s + buf c) % 256) := by
          simp [List.foldl_cons, h1]
      _ = (s + buf c + (t.map buf).sum) % 256 := ih (s + buf c)
      _ = (s + ((c :: t).map buf).sum) % 256 := by
          simp [List.map_cons, List.sum_cons]; ring_nf

/-- The CRC fold with initial accumulator 0, rewritten to a sum mod 256. -/
theorem crc_fold_eq (buf : Nat → Nat) :
    (List.range 14).foldl (fun a i => (a + buf i) % 256) 0 =
      ((List.range 14).map buf).sum % 256 := by
  have h := foldl_mod256_eq_sum_mod buf (List.range 14) 0
  simpa using h

/-- Unfolding of `ValidateCRC` to its Prop form. -/
theorem validateCRC_eq_true_iff (buf : Nat → Nat) :
    ValidateCRC buf = true ↔
      buf 14 = 255 - (((List.range 14).map buf).sum % 256) := by
  rw [ValidateCRC, crc_fold_eq, decide_eq_true_eq, eq_comm]

/-! ## C3: validation characterisation -/

/-- C3: a frame passes `ValidateBLEPacket` iff byte 0 is `0x21`, byte 1 is
`0x47`, and byte 14 equals the bitwise complement (`255 - ·`) of the sum of
bytes 0–13 reduced modulo 256; in particular a wrong marker fails
regardless of checksum, and a frame built with that checksum byte
validates. -/
theorem C3_validate_iff (buf : Nat → Nat) :
    ValidateBLEPacket buf = true ↔
      (buf 0 = 33 ∧ buf 1 = 71 ∧
        buf 14 = 255 - (((List.range 14).map buf).sum % 256)) := by
  rw [ValidateBLEPacket]
  by_cases h0 : buf 0 = 33
  · by_cases h1 : buf 1 = 71
    · simp [h0, h1, validateCRC_eq_true_iff]
    · simp [h0, h1]
  · simp [h0]

/-! ## C8: validation reads only bytes 0–14 -/

/-- C8: validation depends only on the first 15 bytes: buffers agreeing on
bytes 0–14 get identical results from `ValidateBLEPacket`, `ValidateCRC`
and `checkCRC` — no length check restricts what may follow. -/
theorem C8_validation_depends_on_first_15 (buf buf' : Nat → Nat)
    (h : ∀ i, i < 15 → buf i = buf' i) :
    ValidateBLEPacket buf = ValidateBLEPacket buf' ∧
      ValidateCRC buf = ValidateCRC buf' ∧ checkCRC buf = checkCRC buf' := by
  have hmap : (List.range 14).map buf = (List.range 14).map buf' := by
    apply List.map_congr_left
    intro i hi
    exact h i (Nat.lt_of_lt_of_le (List.mem_range.mp hi) (by omega))
  have hcrc : ValidateCRC buf = ValidateCRC buf' := by
    rw [ValidateCRC, ValidateCRC, crc_fold_eq, crc_fold_eq, hmap,
      h 14 (by omega)]
  refine ⟨?_, hcrc, ?_⟩
  · rw [ValidateBLEPacket, ValidateBLEPacket, h 0 (by omega),
      h 1 (by omega), hcrc]
  · rw [checkCRC, checkCRC, crc_fold_eq, crc_fold_eq, hmap, h 14 (by omega)]

/-- A buffer agreeing with `gyroFrame` on bytes 0–14 but different beyond. -/
def gyroFrameThenJunk : Nat → Nat :=
  fun i => if i < 15 then gyroFrame.getD i 0 else 99

/-- Witness for C8 at a concrete pair of buffers that differ from byte 15
onwards. -/
theorem C8_witness :
    ValidateBLEPacket (bufOfList gyroFrame) =
        ValidateBLEPacket gyroFrameThenJunk ∧
      ValidateCRC (bufOfList gyroFrame) = ValidateCRC gyroFrameThenJunk ∧
      checkCRC (bufOfList gyroFrame) = checkCRC gyroFrameThenJunk :=
  C8_validation_depends_on_first_15 (bufOfList gyroFrame) gyroFrameThenJunk
    (by decide)

/-! ## CommandMapper claims -/

/-- C4: the six threshold scenarios of the spec, with exact outputs and
emission order. -/
theorem C4_threshold_scenarios :
    MotorControlFromGyro (F.num 0) (F.num (1/2)) (F.num 0) =
        [Command.forward 3000 3000] ∧
      MotorControlFromGyro (F.num 0) (F.num (-(1/2))) (F.num 0) =
        [Command.backward 3000 3000] ∧
      MotorControlFromGyro (F.num (1/2)) (F.num 0) (F.num 0) =
        [Command.right 3000 3000] ∧
      MotorControlFromGyro (F.num (-(1/2))) (F.num 0) (F.num 0) =
        [Command.left 3000 3000] ∧
      MotorControlFromGyro (F.num (1/10)) (F.num (1/10)) (F.num 0) =
        [Command.stop] ∧
      MotorControlFromGyro (F.num (1/2)) (F.num (1/2)) (F.num 0) =
        [Command.forward 3000 3000, Command.right 3000 3000] := by
  refine ⟨?_, ?_, ?_, ?_, ?_, ?_⟩ <;>
    norm_num [MotorControlFromGyro, F.lt, F.le, F.fabs, abs_le]

/-- Predicate for `|x| ≤ t` at the `F` level: only a finite value within the bound. -/
def absWithin (x : F) (t : ℚ) : Prop :=
  match x with
  | F.num q => |q| ≤ t
  | _ => False

instance absWithin.instDecidable (x : F) (t : ℚ) : Decidable (absWithin x t) :=
  match x with
  | F.num q => inferInstanceAs (Decidable (|q| ≤ t))
  | F.nan => isFalse (fun h => h)
  | F.ninf => isFalse (fun h => h)
  | F.pinf => isFalse (fun h => h)

/-- The stop-branch guard of the source holds exactly when the axis value is
finite and within the bound. -/
theorem le_fabs_iff (x : F) (t : ℚ) :
    F.le (F.fabs x) (F.num t) = true ↔ absWithin x t := by
  cases x <;> simp [F.le, F.fabs, absWithin]

/-- C6: `Stop` is emitted only when both axes are simultaneously within the
0.2 threshold; and the sample (x = 0, y = NaN) has exactly one axis within
the threshold while the other is not, yet emits no command at all. -/
theorem C6_stop_needs_both_axes :
    (∀ x y z, Command.stop ∈ MotorControlFromGyro x y z →
        absWithin x (1/5) ∧ absWithin y (1/5)) ∧
      MotorControlFromGyro (F.num 0) F.nan (F.num 0) = [] ∧
      absWithin (F.num 0) (1/5) ∧ ¬ absWithin F.nan (1/5) := by
  refine ⟨?_, ?_, ?_, ?_⟩
  · intro x y z h
    rw [MotorControlFromGyro] at h
    simp only [List.mem_append] at h
    rcases h with (h | h) | h
    · split_ifs at h <;> simp at h
    · split_ifs at h <;> simp at h
    · split_ifs at h with hc
      · rw [Bool.and_eq_true] at hc
        exact ⟨(le_fabs_iff x (1/5)).mp hc.1, (le_fabs_iff y (1/5)).mp hc.2⟩
      · simp at h
  · norm_num [MotorControlFromGyro, F.lt, F.le, F.fabs]
  · show |(0 : ℚ)| ≤ 1/5
    rw [abs_le]; constructor <;> norm_num
  · exact fun h => h

/-- Witness for C6 at the concrete sample (0.1, 0.1, 0), whose output is
exactly `[stop]`. -/
theorem C6_witness :
    absWithin (F.num (1/10)) (1/5) ∧ absWithin (F.num (1/10)) (1/5) :=
  C6_stop_needs_both_axes.1 (F.num (1/10)) (F.num (1/10)) (F.num 0)
    (by norm_num [MotorControlFromGyro, F.lt, F.le, F.fabs, abs_le])

def isForward : Command → Bool
  | Command.forward _ _ => true
  | _ => false

def isBackward : Command → Bool
  | Command.backward _ _ => true
  | _ => false

def isRight : Command → Bool
  | Command.right _ _ => true
  | _ => false

def isLeft : Command → Bool
  | Command.left _ _ => true
  | _ => false

/-- C9: a single mapper call never emits both Forward and Backward, nor
both Right and Left: the two `if/else if` chains are mutually exclusive. -/
theorem C9_opposite_commands_exclusive (x y z : F) :
    ¬((MotorControlFromGyro x y z).any isForward = true ∧
        (MotorControlFromGyro x y z).any isBackward = true) ∧
      ¬((MotorControlFromGyro x y z).any isRight = true ∧
        (MotorControlFromGyro x y z).any isLeft = true) := by
  rw [MotorControlFromGyro]
  constructor <;>
    · rintro ⟨h1, h2⟩
      split_ifs at h1 h2 <;>
        simp [isForward, isBackward, isRight, isLeft] at h1 h2

/-- Witness for C9 at the concrete diagonal sample (0.5, 0.5, 0). -/
theorem C9_witness :
    ¬((MotorControlFromGyro (F.num (1/2)) (F.num (1/2)) (F.num 0)).any
          isForward = true ∧
        (MotorControlFromGyro (F.num (1/2)) (F.num (1/2)) (F.num 0)).any
          isBackward = true) ∧
      ¬((MotorControlFromGyro (F.num (1/2)) (F.num (1/2)) (F.num 0)).any
          isRight = true ∧
        (MotorControlFromGyro (F.num (1/2)) (F.num (1/2)) (F.num 0)).any
          isLeft = true) :=
  C9_opposite_commands_exclusive (F.num (1/2)) (F.num (1/2)) (F.num 0)

/-- Counterexample to C10 as stated: with x = NaN but y = 0.5, the claim
requires that no command be emitted, yet `MotorControlFromGyro` still emits
Forward — only the comparisons touching the NaN axis are false. -/
theorem C10_counterexample :
    MotorControlFromGyro F.nan (F.num (1/2)) (F.num 0) =
      [Command.forward 3000 3000] := by
  norm_num [MotorControlFromGyro, F.lt, F.le, F.fabs]

/-- The directional `if/else if` chain yields `[]` exactly when both guards
are false. -/
theorem dirPair_eq_nil (a b : Bool) (u v : Command) :
    (if a then [u] else if b then [v] else ([] : List Command)) = [] ↔
      a = false ∧ b = false := by
  cases a <;> cases b <;> simp

/-- The stop branch yields `[]` exactly when its guard is false. -/
theorem stopList_eq_nil (c : Bool) :
    (if c then [Command.stop] else ([] : List Command)) = [] ↔ c = false := by
  cases c <;> simp

/-- A directional `if/else if` chain on axis `v` yields `[]` exactly when
`v` is NaN or finite within the threshold (infinities trigger a guard). -/
theorem dirChain_eq_nil_iff (v : F) (t : ℚ) (u w : Command) :
    (if F.lt (F.num t) v then [u]
      else if F.lt v (F.num (-t)) then [w]
      else ([] : List Command)) = [] ↔ (v = F.nan ∨ absWithin v t) := by
  rw [dirPair_eq_nil]
  cases v with
  | nan => simp [F.lt, absWithin]
  | pinf => simp [F.lt, absWithin]
  | ninf => simp [F.lt, absWithin]
  | num q =>
    simp only [F.lt, decide_eq_false_iff_not, not_lt, absWithin, abs_le]
    constructor
    · rintro ⟨h1, h2⟩
      exact Or.inr ⟨h2, h1⟩
    · rintro (h | ⟨h1, h2⟩)
      · exact absurd h (by simp)
      · exact ⟨h2, h1⟩

/-- Exact characterisation of silent iterations: `MotorControlFromGyro`
emits no command at all iff each axis is NaN or within the threshold, and
at least one of x, y is NaN (both-finite-within emits `Stop` instead). -/
theorem motor_eq_nil_iff (x y z : F) :
    MotorControlFromGyro x y z = [] ↔
      ((x = F.nan ∨ absWithin x (1/5)) ∧ (y = F.nan ∨ absWithin y (1/5)) ∧
        (x = F.nan ∨ y = F.nan)) := by
  rw [MotorControlFromGyro, List.append_eq_nil, List.append_eq_nil]
  constructor
  · rintro ⟨⟨hY, hX⟩, hS⟩
    rw [dirChain_eq_nil_iff] at hY hX
    rw [stopList_eq_nil] at hS
    refine ⟨hX, hY, ?_⟩
    by_contra hc
    push_neg at hc
    obtain ⟨hxn, hyn⟩ := hc
    have hax : absWithin x (1/5) := hX.resolve_left hxn
    have hay : absWithin y (1/5) := hY.resolve_left hyn
    rw [Bool.and_eq_false_iff] at hS
    rcases hS with h | h
    · exact absurd ((le_fabs_iff x (1/5)).mpr hax) (by rw [h]; simp)
    · exact absurd ((le_fabs_iff y (1/5)).mpr hay) (by rw [h]; simp)
  · rintro ⟨hx, hy, hnan⟩
    refine ⟨⟨?_, ?_⟩, ?_⟩
    · rw [dirChain_eq_nil_iff]
      exact hy
    · rw [dirChain_eq_nil_iff]
      exact hx
    · rw [stopList_eq_nil]
      rcases hnan with rfl | rfl <;> simp [F.le, F.fabs]

/-- C10 (amended): if neither x nor y is NaN, at least one command is
emitted; if x or y is NaN, the comparisons touching that axis are false, so
`Stop` is never emitted; and no command at all is emitted exactly when at
least one of x, y is NaN and each of them is NaN or within the threshold
(so e.g. x = NaN with y = 0 also emits nothing, while x = NaN with y = 0.5
still emits Forward). -/
theorem C10_amended_nan_behaviour :
    (∀ x y z, x ≠ F.nan → y ≠ F.nan → MotorControlFromGyro x y z ≠ []) ∧
      (∀ x y z, x = F.nan ∨ y = F.nan →
        Command.stop ∉ MotorControlFromGyro x y z) ∧
      (∀ x y z, MotorControlFromGyro x y z = [] ↔
        ((x = F.nan ∨ absWithin x (1/5)) ∧ (y = F.nan ∨ absWithin y (1/5)) ∧
          (x = F.nan ∨ y = F.nan))) := by
  refine ⟨?_, ?_, motor_eq_nil_iff⟩
  · intro x y z hx hy h
    rcases ((motor_eq_nil_iff x y z).mp h).2.2 with rfl | rfl
    · exact hx rfl
    · exact hy rfl
  · intro x y z h
    have hnil : (if F.le (F.fabs x) (F.num (1/5)) &&
        F.le (F.fabs y) (F.num (1/5)) then [Command.stop]
        else ([] : List Command)) = [] := by
      rcases h with rfl | rfl <;> simp [F.le, F.fabs]
    rw [MotorControlFromGyro, hnil, List.append_nil]
    simp only [List.mem_append, not_or]
    constructor <;> split_ifs <;> simp

/-- Witness for the amended C10 at the concrete all-zero sample. -/
theorem C10_witness :
    MotorControlFromGyro (F.num 0) (F.num 0) (F.num 0) ≠ [] :=
  C10_amended_nan_behaviour.1 (F.num 0) (F.num 0) (F.num 0)
    (by decide) (by decide)

/-! ## C7: PayloadDecoder byte order and float decode -/

/-- C7: the decoder reads exactly 4 bytes per axis in little-endian order —
any word below `2^32` written byte-wise little-endian at an offset is
reassembled exactly — and a frame carrying the binary32 encodings of 1.5
(`0x3FC00000`), -2.25 (`0xC0100000`) and 0.0 at offsets 2, 6, 10 decodes to
exactly those values. -/
theorem C7_little_endian_float_decode :
    (∀ (buf : Nat → Nat) (off w : Nat), w < 4294967296 →
        buf off = w % 256 → buf (off + 1) = w / 256 % 256 →
        buf (off + 2) = w / 65536 % 256 →
        buf (off + 3) = w / 16777216 % 256 →
        extractWord buf off = w) ∧
      (∀ buf : Nat → Nat,
        buf 2 = 0 → buf 3 = 0 → buf 4 = 192 → buf 5 = 63 →
        buf 6 = 0 → buf 7 = 0 → buf 8 = 16 → buf 9 = 192 →
        buf 10 = 0 → buf 11 = 0 → buf 12 = 0 → buf 13 = 0 →
        ExtractFloat buf 2 = F.num (3/2) ∧
          ExtractFloat buf 6 = F.num (-(9/4)) ∧
          ExtractFloat buf 10 = F.num 0) := by
  constructor
  · intro buf off w hw h0 h1 h2 h3
    rw [extractWord, h0, h1, h2, h3]
    omega
  · intro buf h2 h3 h4 h5 h6 h7 h8 h9 h10 h11 h12 h13
    have hx : extractWord buf 2 = 1069547520 := by
      rw [extractWord, h2, h3, h4, h5]
    have hy : extractWord buf 6 = 3222274048 := by
      rw [extractWord]
      norm_num [h6, h7, h8, h9]
    have hz : extractWord buf 10 = 0 := by
      rw [extractWord, h10, h11, h12, h13]
    refine ⟨?_, ?_, ?_⟩
    · rw [ExtractFloat, hx]; norm_num [float32ToF]
    · rw [ExtractFloat, hy]; norm_num [float32ToF]
    · rw [ExtractFloat, hz]; norm_num [float32ToF]

/-- Witness for C7 on the concrete frame `floatFrame` (which also carries a
correct checksum). -/
theorem C7_witness :
    extractWord (bufOfList floatFrame) 2 = 1069547520 ∧
      (ExtractFloat (bufOfList floatFrame) 2 = F.num (3/2) ∧
        ExtractFloat (bufOfList floatFrame) 6 = F.num (-(9/4)) ∧
        ExtractFloat (bufOfList floatFrame) 10 = F.num 0) :=
  ⟨C7_little_endian_float_decode.1 (bufOfList floatFrame) 2 1069547520
      (by norm_num) (by decide) (by decide) (by decide) (by decide),
    C7_little_endian_float_decode.2 (bufOfList floatFrame)
      (by decide) (by decide) (by decide) (by decide) (by decide) (by decide)
      (by decide) (by decide) (by decide) (by decide) (by decide)
      (by decide)⟩

/-! ## C1: main decodes and maps even invalid frames (code bug) -/

/-- C1 evaluated at a failing input: `badFrame` fails validation (its
checksum byte is 0, not 88), `ParseBLEPacket` itself decodes nothing for
it — but one iteration of `main`'s loop still emits `Forward(3000, 3000)`
for it, because `main` ignores the validation outcome and calls
`ExtractFloat`/`MotorControlFromGyro` unconditionally.  (The gated path
`BLE_UART_HandleRxData` in BLE_UART.c is never called from `main`.) -/
theorem C1_invalid_frame_still_drives_motor :
    ValidateBLEPacket (bufOfList badFrame) = false ∧
      ParseBLEPacket (bufOfList badFrame) = none ∧
      mainIteration (bufOfList badFrame) = [Command.forward 3000 3000] := by
  have hv : ValidateBLEPacket (bufOfList badFrame) = false := by decide
  refine ⟨hv, ?_, ?_⟩
  · rw [ParseBLEPacket, hv]; simp
  · have hx : extractWord (bufOfList badFrame) 2 = 0 := by decide
    have hy : extractWord (bufOfList badFrame) 6 = 1056964608 := by decide
    have hz : extractWord (bufOfList badFrame) 10 = 0 := by decide
    rw [mainIteration, ExtractFloat, ExtractFloat, ExtractFloat, hx, hy, hz]
    have h0 : float32ToF 0 = F.num 0 := by norm_num [float32ToF]
    have hhalf : float32ToF 1056964608 = F.num (1/2) := by
      norm_num [float32ToF]
    rw [h0, hhalf]
    norm_num [MotorControlFromGyro, F.lt, F.le, F.fabs, abs_le]

/-! ## FrameAssembler claims -/

/-- Write the bytes of `l` at consecutive positions starting at `pos`. -/
def writeSeq (buf : Nat → Nat) (pos : Nat) : List Nat → (Nat → Nat)
  | [] => buf
  | c :: rest => writeSeq (wr buf pos c) (pos + 1) rest

/-- Reading back after `writeSeq`: positions in `[pos, pos + l.length)` hold
the corresponding bytes of `l`, everything else is untouched. -/
theorem writeSeq_read (l : List Nat) :
    ∀ (buf : Nat → Nat) (pos j : Nat),
      writeSeq buf pos l j =
        if pos ≤ j ∧ j < pos + l.length then l.getD (j - pos) 0 else buf j := by
  induction l with
  | nil =>
    intro buf pos j
    rw [if_neg (by simp)]
    rfl
  | cons c t ih =>
    intro buf pos j
    have hstep : writeSeq buf pos (c :: t) j =
        writeSeq (wr buf pos c) (pos + 1) t j := rfl
    rw [hstep, ih (wr buf pos c) (pos + 1) j]
    simp only [List.length_cons]
    by_cases hj : j = pos
    · subst hj
      rw [if_neg (by omega), if_pos (by omega)]
      simp [wr]
    · by_cases hr : pos + 1 ≤ j ∧ j < pos + 1 + t.length
      · rw [if_pos hr, if_pos (by omega)]
        obtain ⟨k, rfl⟩ : ∃ k, j = k + (pos + 1) := ⟨j - (pos + 1), by omega⟩
        have h1 : k + (pos + 1) - (pos + 1) = k := by omega
        have h2 : k + (pos + 1) - pos = k + 1 := by omega
        rw [h1, h2, List.getD_cons_succ]
      · rw [if_neg hr, if_neg (by omega)]
        simp [wr, hj]

/-- In the scanning state (`st = 0`, empty buffer), bytes other than `0x21`
are consumed without changing anything. -/
theorem inString_skip_noise (s : List Nat) :
    ∀ noise : List Nat, (∀ b ∈ noise, b ≠ 33) →
      ∀ (buf : Nat → Nat) (pos bsize : Nat), 0 < bsize →
        BLE_UART_InStringLoop buf pos 0 0 bsize (noise ++ s) =
          BLE_UART_InStringLoop buf pos 0 0 bsize s := by
  intro noise
  induction noise with
  | nil => intro _ buf pos bsize _; rfl
  | cons b t ih =>
    intro hn buf pos bsize hb
    have hb33 : b ≠ 33 := hn b (List.mem_cons_self b t)
    rw [List.cons_append]
    simp only [BLE_UART_InStringLoop]
    rw [if_pos hb, if_neg (fun h => hb33 h.2), if_neg (by simp),
      if_neg (by simp)]
    exact ih (fun x hx => hn x (List.mem_cons_of_mem b hx)) buf pos bsize hb

/-- In the collecting state (`st = 2`) with `15 - len` bytes remaining, the
loop returns length 15 and the buffer extended by exactly those bytes. -/
theorem inString_collect (rest : List Nat) :
    ∀ (buf : Nat → Nat) (pos len bsize : Nat), 15 ≤ bsize →
      len + rest.length = 15 → len ≤ 14 →
      BLE_UART_InStringLoop buf pos len 2 bsize rest =
        some (15, writeSeq buf pos rest) := by
  induction rest with
  | nil =>
    intro buf pos len bsize hb hlen hle
    simp only [List.length_nil] at hlen
    omega
  | cons c t ih =>
    intro buf pos len bsize hb hlen hle
    simp only [List.length_cons] at hlen
    simp only [BLE_UART_InStringLoop]
    rw [if_pos (by omega : len < bsize), if_neg (by simp),
      if_neg (by simp), if_pos trivial]
    by_cases h15 : len + 1 = 15
    · have ht : t = [] := by
        rw [← List.length_eq_zero]
        omega
      subst ht
      rw [if_pos h15, h15]
      rfl
    · rw [if_neg h15,
        ih (wr buf pos c) (pos + 1) (len + 1) bsize hb (by omega) (by omega)]
      rfl

/-- Counterexample to C2 as stated: for the noise bytes `[0x21, 0x00]`
followed by the valid frame `gyroFrame`, `BLE_UART_InString` does return
length 15, but the buffer's first 15 bytes are NOT the frame: the stale
noise `0x21` remains at index 0 (the reset branch never rewinds the write
pointer) and the frame's bytes are shifted one place right, its last byte
(the checksum) falling outside the returned window. -/
theorem C2_counterexample :
    (BLE_UART_InString 128 ([33, 0] ++ gyroFrame)).map
        (fun r => (r.1, (List.range 15).map r.2)) =
      some (15, [33, 33, 71, 0, 0, 0, 0, 0, 0, 0, 63, 0, 0, 0, 0]) ∧
      [33, 33, 71, 0, 0, 0, 0, 0, 0, 0, 63, 0, 0, 0, 0] ≠ gyroFrame := by
  constructor
  · decide
  · decide

/-- C2 (amended): if no noise byte equals `0x21` (so no partial marker
match is pending when the frame starts), then noise followed by a valid
15-byte frame `33 :: 71 :: rest` yields exactly one assembled frame of
length 15 whose buffer holds exactly the frame's bytes, all noise
discarded. -/
theorem C2_amended_resync (noise rest : List Nat)
    (hn : ∀ b ∈ noise, b ≠ 33) (hr : rest.length = 13) :
    (BLE_UART_InString 128 (noise ++ 33 :: 71 :: rest)).map
        (fun r => (r.1, (List.range 15).map r.2)) =
      some (15, 33 :: 71 :: rest) := by
  rw [BLE_UART_InString,
    inString_skip_noise (33 :: 71 :: rest) noise hn (fun _ => 0) 0 128
      (by omega)]
  have hstep : BLE_UART_InStringLoop (fun _ => 0) 0 0 0 128
      (33 :: 71 :: rest) =
      BLE_UART_InStringLoop (wr (wr (fun _ => 0) 0 33) 1 71) 2 2 2 128
        rest := by
    simp [BLE_UART_InStringLoop]
  rw [hstep,
    inString_collect rest (wr (wr (fun _ => 0) 0 33) 1 71) 2 2 128
      (by omega) (by omega) (by omega)]
  rw [Option.map_some']
  refine congrArg some (Prod.ext rfl ?_)
  apply List.ext_getElem
  · simp [hr]
  · intro i h1 h2
    simp only [List.getElem_map, List.getElem_range]
    rw [writeSeq_read]
    simp only [List.length_map, List.length_range] at h1
    rcases (show i = 0 ∨ i = 1 ∨ (2 ≤ i ∧ i < 15) by omega) with
      rfl | rfl | ⟨h2le, h15⟩
    · rw [if_neg (by omega)]
      simp [wr]
    · rw [if_neg (by omega)]
      simp [wr]
    · rw [if_pos ⟨by omega, by rw [hr]; omega⟩]
      obtain ⟨k, rfl⟩ : ∃ k, i = k + 2 := ⟨i - 2, by omega⟩
      have hk : k + 2 - 2 = k := by omega
      have hk13 : k < rest.length := by omega
      rw [hk, List.getD_eq_getElem rest 0 hk13]
      show rest[k] = (33 :: 71 :: rest)[(k + 1) + 1]
      rw [List.getElem_cons_succ, List.getElem_cons_succ]

/-- Witness for the amended C2 at concrete noise `[0, 255, 32]` and the
payload/checksum bytes of `gyroFrame`. -/
theorem C2_witness :
    (BLE_UART_InString 128 ([0, 255, 32] ++ 33 :: 71 ::
          [0, 0, 0, 0, 0, 0, 0, 63, 0, 0, 0, 0, 88])).map
        (fun r => (r.1, (List.range 15).map r.2)) =
      some (15, 33 :: 71 :: [0, 0, 0, 0, 0, 0, 0, 63, 0, 0, 0, 0, 88]) :=
  C2_amended_resync [0, 255, 32] [0, 0, 0, 0, 0, 0, 0, 63, 0, 0, 0, 0, 88]
    (by decide) (by decide)

/-- Reachability invariant of the assembler loop: from any state of the
scan (`st = 0` with empty buffer, `st = 1` after the first marker byte, or
`st = 2` collecting with `2 ≤ len ≤ 14`), if the loop returns at all and
the buffer capacity is at least 15, the returned length is exactly 15. -/
theorem inString_inv (stream : List Nat) :
    ∀ (buf : Nat → Nat) (pos len st bsize : Nat), 15 ≤ bsize →
      ((st = 0 ∧ len = 0) ∨ (st = 1 ∧ len = 1) ∨
        (st = 2 ∧ 2 ≤ len ∧ len ≤ 14)) →
      ∀ res, BLE_UART_InStringLoop buf pos len st bsize stream = some res →
        res.1 = 15 := by
  induction stream with
  | nil =>
    intro buf pos len st bsize hb hinv res h
    have hlb : len < bsize := by
      rcases hinv with ⟨_, h0⟩ | ⟨_, h1⟩ | ⟨_, _, h14⟩ <;> omega
    rw [show BLE_UART_InStringLoop buf pos len st bsize [] =
        (if len < bsize then none else some (len, buf)) from rfl,
      if_pos hlb] at h
    exact absurd h (by simp)
  | cons c t ih =>
    intro buf pos len st bsize hb hinv res h
    have hlb : len < bsize := by
      rcases hinv with ⟨_, h0⟩ | ⟨_, h1⟩ | ⟨_, _, h14⟩ <;> omega
    simp only [BLE_UART_InStringLoop] at h
    rw [if_pos hlb] at h
    by_cases h1 : st = 0 ∧ c = 33
    · rw [if_pos h1] at h
      exact ih _ _ _ _ _ hb (Or.inr (Or.inl ⟨rfl, rfl⟩)) res h
    · rw [if_neg h1] at h
      by_cases h2 : st = 1 ∧ c = 71
      · rw [if_pos h2] at h
        have hl1 : len = 1 := by
          rcases hinv with ⟨hs, _⟩ | ⟨_, hl⟩ | ⟨hs, _, _⟩ <;> omega
        exact ih _ _ _ _ _ hb
          (Or.inr (Or.inr ⟨rfl, by omega, by omega⟩)) res h
      · rw [if_neg h2] at h
        by_cases h3 : st = 2
        · rw [if_pos h3] at h
          have hrange : 2 ≤ len ∧ len ≤ 14 := by
            rcases hinv with ⟨hs, _⟩ | ⟨hs, _⟩ | ⟨_, hr⟩ <;> omega
          by_cases h15 : len + 1 = 15
          · rw [if_pos h15] at h
            have hres : (len + 1, wr buf pos c) = res := Option.some_inj.mp h
            rw [← hres]
            exact h15
          · rw [if_neg h15] at h
            exact ih _ _ _ _ _ hb
              (Or.inr (Or.inr ⟨rfl, by omega, by omega⟩)) res h
        · rw [if_neg h3] at h
          exact ih _ _ _ _ _ hb (Or.inl ⟨rfl, rfl⟩) res h

/-- C5: whenever `BLE_UART_InString` (capacity at least 15, e.g. 128 in
`main`) returns for some byte stream, the returned length is exactly 15 —
never fewer and never more bytes; it does not return until a full frame has
been collected (an exhausted stream yields `none`, modelling blocking). -/
theorem C5_assembler_returns_exactly_15 (stream : List Nat) (bsize : Nat)
    (hb : 15 ≤ bsize) (n : Nat)
    (h : (BLE_UART_InString bsize stream).map Prod.fst = some n) : n = 15 := by
  rw [BLE_UART_InString] at h
  obtain ⟨res, hres, hfst⟩ := Option.map_eq_some'.mp h
  rw [← hfst]
  exact inString_inv stream (fun _ => 0) 0 0 0 bsize hb
    (Or.inl ⟨rfl, rfl⟩) res hres

/-- Witness for C5 on the concrete stream consisting of `gyroFrame`. -/
theorem C5_witness : 15 ≤ 128 ∧ (15 : Nat) = 15 :=
  ⟨by omega,
    C5_assembler_returns_exactly_15 gyroFrame 128 (by omega) 15 (by decide)⟩
